import Mathlib

/-!
Shallow embedding of `src/main.rs` (euribor-cost-chart).

Modelling conventions:
* `chrono::NaiveDate` is modelled as `ℤ` (a day number); `Duration::days n`
  addition/subtraction becomes integer addition/subtraction, and
  `(a - b).num_days()` becomes `a - b`.
* `f64` is modelled as `ℚ` (exact arithmetic in place of floating point).
* `i64` is modelled as `ℤ`.
* Fallible code (the `?` operator, `unwrap`) is modelled with `Except`/`Option`.
* `HashMap<NaiveDate, f64>` built by `collect` over an iterator is modelled as
  a lookup function; since `collect` inserts sequentially and later inserts
  overwrite earlier ones, the lookup finds the last matching list entry.
-/

/-- Rust struct `EuriborRate { date: NaiveDate, rate: f64 }`. -/
structure EuriborRate where
  date : ℤ
  rate : ℚ
deriving DecidableEq, Repr

/-- Rust struct `AllEuriborRates` holding the five tenor series. -/
structure AllEuriborRates where
  w01 : List EuriborRate
  m01 : List EuriborRate
  m03 : List EuriborRate
  m06 : List EuriborRate
  m12 : List EuriborRate

/-- The array `rates_vec = [&w01, &m01, &m03, &m06, &m12]` of
`calculate_average_rates`. -/
def ratesVec (a : AllEuriborRates) : Fin 5 → List EuriborRate :=
  ![a.w01, a.m01, a.m03, a.m06, a.m12]

/-- The array `periods = [7, 30, 90, 180, 360]`. -/
def periods : Fin 5 → ℤ := ![7, 30, 90, 180, 360]

theorem periods_pos (i : Fin 5) : 0 < periods i := by
  fin_cases i <;> decide

/-- The `rate_maps` entry for one series: a `HashMap<NaiveDate, f64>` built by
`rates.iter().map(|r| (r.date, r.rate)).collect()`.  Sequential insertion means
the last occurrence of a date wins, hence the lookup on the reversed list. -/
def buildMap (rs : List EuriborRate) : ℤ → Option ℚ :=
  fun d => (rs.reverse.find? (fun r => r.date == d)).map EuriborRate.rate

/-- `start_date`: `rates_vec.iter().filter_map(|r| r.first())
.min_by_key(|r| r.date).map(|r| r.date)` (before the `unwrap`). -/
def startDateOpt (a : AllEuriborRates) : Option ℤ :=
  (((List.ofFn (ratesVec a)).filterMap List.head?).map EuriborRate.date).min?

/-- `end_date`: `rates_vec.iter().filter_map(|r| r.last())
.max_by_key(|r| r.date).map(|r| r.date)` (before the `unwrap`). -/
def endDateOpt (a : AllEuriborRates) : Option ℤ :=
  (((List.ofFn (ratesVec a)).filterMap List.getLast?).map EuriborRate.date).max?

/-- The inner sampling loop of `calculate_average_rates`:

```rust
while check_date <= current_date + Duration::days(check_period - 1) {
    if let Some(&rate) = rate_maps[i].get(&check_date) {
        let days_in_period = min(period, (end_date - check_date).num_days() + 1);
        sum += rate * days_in_period as f64;
        total_days += days_in_period;
    }
    check_date += Duration::days(period);
}
```

Here `bound = current_date + (check_period - 1)`, `c = check_date`; the result
is the pair `(sum, total_days)`.  The hypothesis `hP : 0 < period` records that
the program only calls this with the positive periods 7/30/90/180/360 (the
Rust loop would not terminate otherwise). -/
def sampleLoop (m : ℤ → Option ℚ) (e : ℤ) (period : ℤ) (hP : 0 < period)
    (bound : ℤ) (c : ℤ) : ℚ × ℤ :=
  if c ≤ bound then
    let rest := sampleLoop m e period hP bound (c + period)
    match m c with
    | some rate =>
        let days_in_period := min period (e - c + 1)
        (rate * (days_in_period : ℚ) + rest.1, days_in_period + rest.2)
    | none => rest
  else (0, 0)
termination_by (bound + 1 - c).toNat
decreasing_by omega

/-- The per-day, per-tenor body of `calculate_average_rates`: computes
`avg_rates[i]` for day `d` (called `current_date` in the source). -/
def avgForDay (m : ℤ → Option ℚ) (e W : ℤ) (period : ℤ) (hP : 0 < period)
    (d : ℤ) : ℚ :=
  let days_left := (e - d) + 1
  let check_period := min W days_left
  let r := sampleLoop m e period hP (d + (check_period - 1)) d
  if 0 < r.2 then r.1 / (r.2 : ℚ) else 0

/-- The outer `while current_date <= end_date` loop, pushing one value per
calendar day. -/
def daysLoop {α : Type} (g : ℤ → α) (e : ℤ) (d : ℤ) : List α :=
  if d ≤ e then g d :: daysLoop g e (d + 1) else []
termination_by (e + 1 - d).toNat
decreasing_by omega

/-! The Rust std string routines used by `read_csv` (`str::trim`,
`str::to_lowercase`, `str::contains`) are given concrete, executable
definitions over the character list of the string (ASCII-faithful; the input
data is ASCII). -/

/-- Rust `str::to_lowercase` (ASCII). -/
def lowerString (s : String) : String := ⟨s.data.map Char.toLower⟩

/-- Auxiliary: does the second list occur at the head of the first? -/
def startsWith : List Char → List Char → Bool
  | _, [] => true
  | [], _ :: _ => false
  | c :: cs, p :: ps => c == p && startsWith cs ps

/-- Rust `str::contains` on character lists: the pattern occurs at some
position. -/
def containsList (pat : List Char) : List Char → Bool
  | [] => startsWith [] pat
  | c :: t => startsWith (c :: t) pat || containsList pat t

/-- Rust `str::trim`: remove leading and trailing whitespace. -/
def trimStr (s : String) : String :=
  ⟨((s.data.dropWhile Char.isWhitespace).reverse.dropWhile
      Char.isWhitespace).reverse⟩

/-- The sentinel test of `read_csv`:
`rate_str == "." || rate_str.is_empty() || rate_str.to_lowercase().contains("no value")`. -/
def isSentinel (s : String) : Bool :=
  s == "." || s == "" || containsList "no value".data (lowerString s).data

/-- The record-processing loop of `read_csv`, over the records that remain
after the 9 skipped metadata lines.  A record is a list of fields.  `pd` models
`NaiveDate::parse_from_str(_, "%Y-%m-%d")` and `pf` models
`str::parse::<f64>()`; both are parameters because string-to-number parsing is
external library behaviour.  `last` is the mutable `last_valid_rate`.
`Except.error ()` models the `?`-propagated date parse error. -/
def readCsvGo (pd : String → Option ℤ) (pf : String → Option ℚ) :
    List (List String) → Option ℚ → Except Unit (List EuriborRate)
  | [], _ => .ok []
  | record :: rest, last =>
    match record with
    | f0 :: f1 :: _ =>
      match pd f0 with
      | none => .error ()
      | some date =>
        let rate_str := trimStr f1
        let (last', rate) :=
          if isSentinel rate_str then (last, last)
          else
            match pf rate_str with
            | some r => (some r, some r)
            | none => (last, last)
        match rate with
        | some r => (readCsvGo pd pf rest last').map (⟨date, r⟩ :: ·)
        | none => readCsvGo pd pf rest last'
    | _ => readCsvGo pd pf rest last  -- record.len() < 2: continue

/-- Rust `read_csv`, given the parsed CSV records of the file.  The first 9
records (metadata preamble) are skipped, then the loop runs with
`last_valid_rate = None`. -/
def read_csv (pd : String → Option ℤ) (pf : String → Option ℚ)
    (records : List (List String)) : Except Unit (List EuriborRate) :=
  readCsvGo pd pf (records.drop 9) none

/-- Rust `calculate_average_rates(all_rates, averaged_time_days)`.
Returns `none` exactly when the two `unwrap`s would panic (all five series
empty); otherwise `some (averages, averaged_time_mark)`. -/
def calculate_average_rates (a : AllEuriborRates) (W : ℤ) :
    Option (List (Fin 5 → ℚ) × ℤ) :=
  match startDateOpt a, endDateOpt a with
  | some s, some e =>
      let maps : Fin 5 → ℤ → Option ℚ := fun i => buildMap (ratesVec a i)
      some (daysLoop
        (fun d => fun i => avgForDay (maps i) e W (periods i) (periods_pos i) d)
        e s, e - W)
  | _, _ => none

/-- The command-line handling of `main`:
`if args.len() > 1 { args[1].parse().unwrap_or(360) } else { 360 }`.
`pint` models `str::parse::<i64>()`. -/
def effectiveWindow (pint : String → Option ℤ) (args : List String) : ℤ :=
  if h : 1 < args.length then (pint (args.get ⟨1, h⟩)).getD 360 else 360

/-- The file-loading loop of `main`: for each of the five files in order,
`read_csv` (an error aborts the run), then the `rates.is_empty()` check (an
empty result aborts the run), then assignment into `AllEuriborRates`. -/
def loadAll (pd : String → Option ℤ) (pf : String → Option ℚ)
    (files : Fin 5 → List (List String)) : Except Unit AllEuriborRates :=
  match read_csv pd pf (files 0) with
  | .error e => .error e
  | .ok r0 =>
    if r0 = [] then .error () else
    match read_csv pd pf (files 1) with
    | .error e => .error e
    | .ok r1 =>
      if r1 = [] then .error () else
      match read_csv pd pf (files 2) with
      | .error e => .error e
      | .ok r2 =>
        if r2 = [] then .error () else
        match read_csv pd pf (files 3) with
        | .error e => .error e
        | .ok r3 =>
          if r3 = [] then .error () else
          match read_csv pd pf (files 4) with
          | .error e => .error e
          | .ok r4 =>
            if r4 = [] then .error () else
            .ok ⟨r0, r1, r2, r3, r4⟩

/-- Rust `main`, up to the data it computes: parses the window argument, loads
the five files (aborting on the first failure), and runs the averager.  A
`.ok` result stands for a completed run that writes the HTML file built from
the returned averages and time mark; `.error ()` stands for an abort before
any output file is created.  (The `none` branch of `calculate_average_rates`
is unreachable here because `loadAll` guarantees non-empty series.) -/
def mainRun (pd : String → Option ℤ) (pf : String → Option ℚ)
    (pint : String → Option ℤ) (args : List String)
    (files : Fin 5 → List (List String)) :
    Except Unit (List (Fin 5 → ℚ) × ℤ) :=
  let W := effectiveWindow pint args
  match loadAll pd pf files with
  | .error e => .error e
  | .ok a =>
    match calculate_average_rates a W with
    | some res => .ok res
    | none => .error ()

/-! ## Reference algorithm of spec §4.2

The following two definitions are written from the specification's words, to
be compared with the embedded code (claim C1).  Spec §4.2: for day `d`,
`window = min(W, (end − d).days + 1)`; the sampling dates are
`c = d, d+P, d+2P, …` while `c ≤ d + (window − 1) days`, i.e. `c = d + k·P`
for `k·P ≤ window − 1`; a sampled `c` with an observation contributes
`rate(c) · weight` and `weight`, `weight = min(P, (end − c).days + 1)`; the
result is `sum/day_count` if `day_count > 0`, else `0`. -/

/-- Number of sampling dates prescribed by spec §4.2: the `k` with
`k·P ≤ window − 1` are `k = 0, …, (window−1)/P` when `window ≥ 1`, and there
are none when `window < 1`. -/
def specNumSamples (P window : ℤ) : ℕ :=
  if 1 ≤ window then ((window - 1).toNat / P.toNat) + 1 else 0

/-- The per-day, per-tenor averaged value prescribed by spec §4.2. -/
def specAvgRate (m : ℤ → Option ℚ) (e P W d : ℤ) : ℚ :=
  let window := min W (e - d + 1)
  let n := specNumSamples P window
  let sum : ℚ := ∑ k ∈ Finset.range n,
    ((m (d + k * P)).elim 0 (fun r => r * ((min P (e - (d + k * P) + 1) : ℤ) : ℚ)))
  let cnt : ℤ := ∑ k ∈ Finset.range n,
    ((m (d + k * P)).elim 0 (fun _ => min P (e - (d + k * P) + 1)))
  if 0 < cnt then sum / (cnt : ℚ) else 0

/-! ## Helper lemmas: the loops as closed forms -/

/-- Number of iterations of the inner sampling loop started at `c`. -/
def steps (P bound c : ℤ) : ℕ :=
  if c ≤ bound then ((bound - c).toNat / P.toNat) + 1 else 0

theorem steps_succ (P bound c : ℤ) (hP : 0 < P) (hc : c ≤ bound) :
    steps P bound c = steps P bound (c + P) + 1 := by
  unfold steps
  by_cases h : c + P ≤ bound
  · rw [if_pos hc, if_pos h]
    have h1 : P.toNat ≤ (bound - c).toNat := by omega
    have h2 : 0 < P.toNat := by omega
    rw [Nat.div_eq_sub_div h2 h1]
    have h3 : (bound - (c + P)).toNat = (bound - c).toNat - P.toNat := by omega
    rw [h3]
  · rw [if_pos hc, if_neg h]
    have h4 : (bound - c).toNat < P.toNat := by omega
    rw [Nat.div_eq_of_lt h4]

theorem sampleLoop_eq_sum (m : ℤ → Option ℚ) (e P : ℤ) (hP : 0 < P)
    (bound : ℤ) : ∀ c, sampleLoop m e P hP bound c =
      (∑ k ∈ Finset.range (steps P bound c),
         ((m (c + k * P)).elim 0
           (fun r => r * ((min P (e - (c + k * P) + 1) : ℤ) : ℚ))),
       ∑ k ∈ Finset.range (steps P bound c),
         ((m (c + k * P)).elim 0 (fun _ => min P (e - (c + k * P) + 1)))) := by
  intro c
  have H : ∀ fuel : ℕ, ∀ c : ℤ, (bound + 1 - c).toNat ≤ fuel →
      sampleLoop m e P hP bound c =
      (∑ k ∈ Finset.range (steps P bound c),
         ((m (c + k * P)).elim 0
           (fun r => r * ((min P (e - (c + k * P) + 1) : ℤ) : ℚ))),
       ∑ k ∈ Finset.range (steps P bound c),
         ((m (c + k * P)).elim 0 (fun _ => min P (e - (c + k * P) + 1)))) := by
    intro fuel
    induction fuel with
    | zero =>
      intro c hc
      rw [sampleLoop, if_neg (by omega)]
      rw [steps, if_neg (by omega)]
      simp
    | succ fuel ih =>
      intro c hc
      by_cases h : c ≤ bound
      · rw [sampleLoop, if_pos h, steps_succ P bound c hP h]
        rw [ih (c + P) (by omega)]
        rw [Finset.sum_range_succ', Finset.sum_range_succ']
        have harg : ∀ k : ℕ, c + ((k : ℤ) + 1) * P = (c + P) + (k : ℤ) * P := by
          intro k; ring
        simp only [Nat.cast_add, Nat.cast_zero, Nat.cast_one, Nat.cast_ofNat,
          zero_mul, add_zero, harg]
        cases hm : m c with
        | some rate =>
          simp only [hm, Option.elim, Prod.mk.injEq]
          constructor <;> ring
        | none =>
          simp only [hm, Option.elim, Prod.mk.injEq]
          constructor <;> ring
      · rw [sampleLoop, if_neg h, steps, if_neg h]
        simp
  exact H ((bound + 1 - c).toNat) c le_rfl


theorem avgForDay_eq_spec (m : ℤ → Option ℚ) (e W P : ℤ) (hP : 0 < P)
    (d : ℤ) : avgForDay m e W P hP d = specAvgRate m e P W d := by
  have hsteps : steps P (d + (min W ((e - d) + 1) - 1)) d
      = specNumSamples P (min W ((e - d) + 1)) := by
    unfold steps specNumSamples
    by_cases h : 1 ≤ min W ((e - d) + 1)
    · rw [if_pos (by omega), if_pos h]
      have h3 : (d + (min W ((e - d) + 1) - 1) - d).toNat
          = (min W ((e - d) + 1) - 1).toNat := by omega
      rw [h3]
    · rw [if_neg (by omega), if_neg h]
  simp only [avgForDay, specAvgRate]
  rw [sampleLoop_eq_sum m e P hP _ d, hsteps]

theorem daysLoop_length {α : Type} (g : ℤ → α) (e : ℤ) :
    ∀ d, (daysLoop g e d).length = (e + 1 - d).toNat := by
  have H : ∀ fuel : ℕ, ∀ d : ℤ, (e + 1 - d).toNat ≤ fuel →
      (daysLoop g e d).length = (e + 1 - d).toNat := by
    intro fuel
    induction fuel with
    | zero =>
      intro d hd
      rw [daysLoop, if_neg (by omega)]
      simp; omega
    | succ fuel ih =>
      intro d hd
      by_cases h : d ≤ e
      · rw [daysLoop, if_pos h]
        simp only [List.length_cons, ih (d + 1) (by omega)]
        omega
      · rw [daysLoop, if_neg h]; simp; omega
  exact fun d => H ((e + 1 - d).toNat) d le_rfl

theorem daysLoop_getElem {α : Type} (g : ℤ → α) (e : ℤ) :
    ∀ (d : ℤ) (n : ℕ), (daysLoop g e d)[n]? =
      if d + n ≤ e then some (g (d + n)) else none := by
  have H : ∀ fuel : ℕ, ∀ d : ℤ, (e + 1 - d).toNat ≤ fuel → ∀ n : ℕ,
      (daysLoop g e d)[n]? =
        if d + n ≤ e then some (g (d + n)) else none := by
    intro fuel
    induction fuel with
    | zero =>
      intro d hd n
      rw [daysLoop, if_neg (by omega), if_neg (by omega)]
      simp
    | succ fuel ih =>
      intro d hd n
      by_cases h : d ≤ e
      · rw [daysLoop, if_pos h]
        cases n with
        | zero => simp [h]
        | succ n =>
          rw [List.getElem?_cons_succ, ih (d + 1) (by omega) n]
          have harg : d + 1 + (n : ℤ) = d + ((n : ℕ) + 1 : ℕ) := by push_cast; ring
          by_cases h2 : d + 1 + (n : ℤ) ≤ e
          · rw [if_pos h2, if_pos (by omega), harg]
          · rw [if_neg h2, if_neg (by omega)]
      · rw [daysLoop, if_neg h, if_neg (by omega)]
        simp
  exact fun d => H ((e + 1 - d).toNat) d le_rfl

theorem daysLoop_mem {α : Type} (g : ℤ → α) (e : ℤ) :
    ∀ d, ∀ x ∈ daysLoop g e d, ∃ t, d ≤ t ∧ t ≤ e ∧ x = g t := by
  have H : ∀ fuel : ℕ, ∀ d : ℤ, (e + 1 - d).toNat ≤ fuel →
      ∀ x ∈ daysLoop g e d, ∃ t, d ≤ t ∧ t ≤ e ∧ x = g t := by
    intro fuel
    induction fuel with
    | zero =>
      intro d hd x hx
      rw [daysLoop, if_neg (by omega)] at hx
      simp at hx
    | succ fuel ih =>
      intro d hd x hx
      by_cases h : d ≤ e
      · rw [daysLoop, if_pos h] at hx
        rcases List.mem_cons.mp hx with hx | hx
        · exact ⟨d, le_refl d, h, hx⟩
        · obtain ⟨t, ht1, ht2, ht3⟩ := ih (d + 1) (by omega) x hx
          exact ⟨t, by omega, ht2, ht3⟩
      · rw [daysLoop, if_neg h] at hx
        simp at hx
  exact fun d => H ((e + 1 - d).toNat) d le_rfl

/-- Structural (fuel-counted) form of `daysLoop`, used to evaluate the
program on concrete inputs; `daysLoop_eq_F` proves it equal. -/
def daysLoopF {α : Type} (g : ℤ → α) : ℕ → ℤ → List α
  | 0, _ => []
  | n + 1, d => g d :: daysLoopF g n (d + 1)

theorem daysLoop_eq_F {α : Type} (g : ℤ → α) (e : ℤ) :
    ∀ d, daysLoop g e d = daysLoopF g (e + 1 - d).toNat d := by
  have H : ∀ n : ℕ, ∀ d : ℤ, (e + 1 - d).toNat = n →
      daysLoop g e d = daysLoopF g n d := by
    intro n
    induction n with
    | zero =>
      intro d h
      rw [daysLoop, if_neg (by omega)]
      rfl
    | succ n ih =>
      intro d h
      rw [daysLoop, if_pos (by omega), daysLoopF, ih (d + 1) (by omega)]
  exact fun d => H ((e + 1 - d).toNat) d rfl

/-- `calculate_average_rates` in closed, structurally-evaluable form: the same
start/end/time-mark computation, with every per-day per-tenor value given by
the spec formula `specAvgRate`.  `calculate_eq_F` proves it equal to the
embedded code. -/
def calculateF (a : AllEuriborRates) (W : ℤ) :
    Option (List (Fin 5 → ℚ) × ℤ) :=
  match startDateOpt a, endDateOpt a with
  | some s, some e =>
      some (daysLoopF
        (fun d => fun i => specAvgRate (buildMap (ratesVec a i)) e (periods i) W d)
        (e + 1 - s).toNat s, e - W)
  | _, _ => none

theorem calculate_eq_F (a : AllEuriborRates) (W : ℤ) :
    calculate_average_rates a W = calculateF a W := by
  unfold calculate_average_rates calculateF
  cases hs : startDateOpt a with
  | none => rfl
  | some s =>
    cases he : endDateOpt a with
    | none => rfl
    | some e =>
      dsimp only
      have hg : (fun d => fun i =>
            avgForDay (buildMap (ratesVec a i)) e W (periods i) (periods_pos i) d)
          = (fun d => fun i =>
            specAvgRate (buildMap (ratesVec a i)) e (periods i) W d) := by
        funext d i
        exact avgForDay_eq_spec (buildMap (ratesVec a i)) e W (periods i)
          (periods_pos i) d
      rw [hg, daysLoop_eq_F]

/-! ## Facts about the start and end dates -/

theorem startDateOpt_le (a : AllEuriborRates) (s : ℤ)
    (hs : startDateOpt a = some s) (i : Fin 5) (r : EuriborRate)
    (hr : (ratesVec a i).head? = some r) : s ≤ r.date := by
  haveI : Std.Antisymm ((· : ℤ) ≤ ·) := ⟨fun h1 h2 => le_antisymm h1 h2⟩
  have h := (List.min?_eq_some_iff (fun x => le_refl x)
    (fun x y => min_choice x y) (fun x y z => le_min_iff)).mp hs
  refine h.2 r.date ?_
  refine List.mem_map.mpr ⟨r, ?_, rfl⟩
  refine List.mem_filterMap.mpr ⟨ratesVec a i, ?_, hr⟩
  exact (List.mem_ofFn _ _).mpr ⟨i, rfl⟩

theorem endDateOpt_ge (a : AllEuriborRates) (e : ℤ)
    (he : endDateOpt a = some e) (i : Fin 5) (r : EuriborRate)
    (hr : (ratesVec a i).getLast? = some r) : r.date ≤ e := by
  haveI : Std.Antisymm ((· : ℤ) ≤ ·) := ⟨fun h1 h2 => le_antisymm h1 h2⟩
  have h := (List.max?_eq_some_iff (fun x => le_refl x)
    (fun x y => max_choice x y) (fun x y z => max_le_iff)).mp he
  refine h.2 r.date ?_
  refine List.mem_map.mpr ⟨r, ?_, rfl⟩
  refine List.mem_filterMap.mpr ⟨ratesVec a i, ?_, hr⟩
  exact (List.mem_ofFn _ _).mpr ⟨i, rfl⟩

theorem head_date_le_getLast_date (l : List EuriborRate)
    (hsort : l.Sorted (fun x y => x.date ≤ y.date)) (h g : EuriborRate)
    (hh : l.head? = some h) (hg : l.getLast? = some g) : h.date ≤ g.date := by
  cases l with
  | nil => simp at hh
  | cons x xs =>
    have hx : x = h := by simpa using hh
    have hmem : g ∈ x :: xs := List.mem_of_getLast?_eq_some hg
    rw [← hx]
    rcases List.mem_cons.mp hmem with hgx | hgxs
    · rw [hgx]
    · exact (List.sorted_cons.mp hsort).1 g hgxs

/-- If all five series are non-empty and sorted by date, the global start date
is at most the global end date. -/
theorem start_le_end (a : AllEuriborRates) (s e : ℤ)
    (hs : startDateOpt a = some s) (he : endDateOpt a = some e)
    (hne : ∀ i, ratesVec a i ≠ [])
    (hsort : ∀ i, (ratesVec a i).Sorted (fun x y => x.date ≤ y.date)) :
    s ≤ e := by
  obtain ⟨h0, hh0⟩ := Option.isSome_iff_exists.mp
    (Option.isSome_iff_ne_none.mpr (mt List.head?_eq_none_iff.mp (hne 0)))
  obtain ⟨g0, hg0⟩ := Option.isSome_iff_exists.mp
    (Option.isSome_iff_ne_none.mpr (mt List.getLast?_eq_none_iff.mp (hne 0)))
  calc s ≤ h0.date := startDateOpt_le a s hs 0 h0 hh0
    _ ≤ g0.date := head_date_le_getLast_date _ (hsort 0) h0 g0 hh0 hg0
    _ ≤ e := endDateOpt_ge a e he 0 g0 hg0

/-! ## Provenance of rates emitted by the loader -/

/-- Row `j` of `rows` has at least two fields, a non-sentinel second field, and
parses (after trimming) to the rate `v`. -/
def rowParses (pf : String → Option ℚ) (rows : List (List String)) (j : ℕ)
    (v : ℚ) : Prop :=
  ∃ f0 f1 t, rows[j]? = some (f0 :: f1 :: t) ∧
    isSentinel (trimStr f1) = false ∧ pf (trimStr f1) = some v

/-- Row `j` of `rows` has at least two fields and its first field parses to
the date `dte`. -/
def rowDate (pd : String → Option ℤ) (rows : List (List String)) (j : ℕ)
    (dte : ℤ) : Prop :=
  ∃ f0 f1 t, rows[j]? = some (f0 :: f1 :: t) ∧ pd f0 = some dte

theorem rowParses_cons (pf : String → Option ℚ) (rec : List String)
    (rows : List (List String)) (j : ℕ) (v : ℚ)
    (h : rowParses pf rows j v) : rowParses pf (rec :: rows) (j + 1) v := by
  obtain ⟨f0, f1, t, hj, h1, h2⟩ := h
  exact ⟨f0, f1, t, by simpa using hj, h1, h2⟩

theorem rowDate_cons (pd : String → Option ℤ) (rec : List String)
    (rows : List (List String)) (j : ℕ) (dte : ℤ)
    (h : rowDate pd rows j dte) : rowDate pd (rec :: rows) (j + 1) dte := by
  obtain ⟨f0, f1, t, hj, h1⟩ := h
  exact ⟨f0, f1, t, by simpa using hj, h1⟩

theorem except_map_ok {ε α β : Type} (f : α → β) (x : Except ε α) (y : β)
    (h : x.map f = .ok y) : ∃ z, x = .ok z ∧ y = f z := by
  cases x with
  | error e => simp [Except.map] at h
  | ok z =>
    refine ⟨z, rfl, ?_⟩
    simpa [Except.map] using h.symm

/-- Every observation emitted by the loader loop carries a rate that some row
(with at least two fields and a non-sentinel field) actually parsed, at an
index no later than the row that emitted the observation's date — unless it
was carried in via the initial `last_valid_rate`. -/
theorem readCsvGo_provenance (pd : String → Option ℤ) (pf : String → Option ℚ) :
    ∀ (rows : List (List String)) (last : Option ℚ) (obs : List EuriborRate),
      readCsvGo pd pf rows last = .ok obs → ∀ o ∈ obs,
      ((∃ jP jE : ℕ, jP ≤ jE ∧ rowParses pf rows jP o.rate ∧
          rowDate pd rows jE o.date)
        ∨ (last = some o.rate ∧ ∃ jE : ℕ, rowDate pd rows jE o.date)) := by
  intro rows
  induction rows with
  | nil =>
    intro last obs h o ho
    simp only [readCsvGo] at h
    cases h
    simp at ho
  | cons rec rest ih =>
    intro last obs h o ho
    rcases rec with _ | ⟨f0, _ | ⟨f1, t⟩⟩
    · simp only [readCsvGo] at h
      rcases ih last obs h o ho with ⟨jP, jE, hle, hp, hd⟩ | ⟨hlast, jE, hd⟩
      · exact Or.inl ⟨jP + 1, jE + 1, by omega, rowParses_cons _ _ _ _ _ hp,
          rowDate_cons _ _ _ _ _ hd⟩
      · exact Or.inr ⟨hlast, jE + 1, rowDate_cons _ _ _ _ _ hd⟩
    · simp only [readCsvGo] at h
      rcases ih last obs h o ho with ⟨jP, jE, hle, hp, hd⟩ | ⟨hlast, jE, hd⟩
      · exact Or.inl ⟨jP + 1, jE + 1, by omega, rowParses_cons _ _ _ _ _ hp,
          rowDate_cons _ _ _ _ _ hd⟩
      · exact Or.inr ⟨hlast, jE + 1, rowDate_cons _ _ _ _ _ hd⟩
    · cases hpd : pd f0 with
      | none =>
        simp only [readCsvGo, hpd] at h
        exact (Except.noConfusion h)
      | some date =>
        by_cases hsent : isSentinel (trimStr f1)
        · simp only [readCsvGo, hpd, hsent, if_true] at h
          cases hlastv : last with
          | some r =>
            rw [hlastv] at h
            obtain ⟨obs', hrec, hobs⟩ := except_map_ok _ _ _ h
            subst hobs
            rcases List.mem_cons.mp ho with ho1 | ho2
            · refine Or.inr ⟨?_, 0, f0, f1, t, by simp, ?_⟩
              · rw [ho1]
              · rw [ho1]; exact hpd
            · rcases ih (some r) obs' hrec o ho2 with
                ⟨jP, jE, hle, hp, hd⟩ | ⟨hlast2, jE, hd⟩
              · exact Or.inl ⟨jP + 1, jE + 1, by omega,
                  rowParses_cons _ _ _ _ _ hp, rowDate_cons _ _ _ _ _ hd⟩
              · exact Or.inr ⟨hlast2, jE + 1, rowDate_cons _ _ _ _ _ hd⟩
          | none =>
            rw [hlastv] at h
            rcases ih none obs h o ho with ⟨jP, jE, hle, hp, hd⟩ | ⟨hlast2, jE, hd⟩
            · exact Or.inl ⟨jP + 1, jE + 1, by omega,
                rowParses_cons _ _ _ _ _ hp, rowDate_cons _ _ _ _ _ hd⟩
            · exact absurd hlast2 (by simp)
        · cases hpf : pf (trimStr f1) with
          | some r =>
            simp only [readCsvGo, hpd, hsent, if_false, hpf] at h
            obtain ⟨obs', hrec, hobs⟩ := except_map_ok _ _ _ h
            subst hobs
            rcases List.mem_cons.mp ho with ho1 | ho2
            · refine Or.inl ⟨0, 0, le_refl 0,
                ⟨f0, f1, t, by simp, by simpa using hsent, by rw [ho1]; exact hpf⟩,
                ⟨f0, f1, t, by simp, by rw [ho1]; exact hpd⟩⟩
            · rcases ih (some r) obs' hrec o ho2 with
                ⟨jP, jE, hle, hp, hd⟩ | ⟨hlast2, jE, hd⟩
              · exact Or.inl ⟨jP + 1, jE + 1, by omega,
                  rowParses_cons _ _ _ _ _ hp, rowDate_cons _ _ _ _ _ hd⟩
              · refine Or.inl ⟨0, jE + 1, by omega,
                  ⟨f0, f1, t, by simp, by simpa using hsent, ?_⟩,
                  rowDate_cons _ _ _ _ _ hd⟩
                rw [hpf]; exact hlast2
          | none =>
            simp only [readCsvGo, hpd, hsent, if_false, hpf] at h
            cases hlastv : last with
            | some r =>
              rw [hlastv] at h
              obtain ⟨obs', hrec, hobs⟩ := except_map_ok _ _ _ h
              subst hobs
              rcases List.mem_cons.mp ho with ho1 | ho2
              · refine Or.inr ⟨?_, 0, f0, f1, t, by simp, ?_⟩
                · rw [ho1]
                · rw [ho1]; exact hpd
              · rcases ih (some r) obs' hrec o ho2 with
                  ⟨jP, jE, hle, hp, hd⟩ | ⟨hlast2, jE, hd⟩
                · exact Or.inl ⟨jP + 1, jE + 1, by omega,
                    rowParses_cons _ _ _ _ _ hp, rowDate_cons _ _ _ _ _ hd⟩
                · exact Or.inr ⟨hlast2, jE + 1, rowDate_cons _ _ _ _ _ hd⟩
            | none =>
              rw [hlastv] at h
              rcases ih none obs h o ho with
                ⟨jP, jE, hle, hp, hd⟩ | ⟨hlast2, jE, hd⟩
              · exact Or.inl ⟨jP + 1, jE + 1, by omega,
                  rowParses_cons _ _ _ _ _ hp, rowDate_cons _ _ _ _ _ hd⟩
              · exact absurd hlast2 (by simp)

/-! ## Error propagation in the loader and the orchestrator -/

/-- A row with at least two fields whose first field fails date parsing makes
the loader loop return the propagated parse error, whatever the carried
state. -/
theorem readCsvGo_error_of_bad_date (pd : String → Option ℤ)
    (pf : String → Option ℚ) :
    ∀ rows : List (List String),
      (∃ f0 f1 t, (f0 :: f1 :: t) ∈ rows ∧ pd f0 = none) →
      ∀ last, readCsvGo pd pf rows last = .error () := by
  intro rows
  induction rows with
  | nil =>
    rintro ⟨f0, f1, t, hmem, _⟩ last
    simp at hmem
  | cons rec rest ih =>
    rintro ⟨f0, f1, t, hmem, hbad⟩ last
    rcases List.mem_cons.mp hmem with hrec | hmem2
    · rw [← hrec]
      simp only [readCsvGo, hbad]
    · have hrest := ih ⟨f0, f1, t, hmem2, hbad⟩
      rcases rec with _ | ⟨g0, _ | ⟨g1, u⟩⟩
      · simp only [readCsvGo]; exact hrest last
      · simp only [readCsvGo]; exact hrest last
      · cases hpd : pd g0 with
        | none => simp only [readCsvGo, hpd]
        | some dte =>
          cases last with
          | some r0 =>
            by_cases hsent : isSentinel (trimStr g1)
            · simp [readCsvGo, hpd, hsent, hrest, Except.map]
            · cases hpf : pf (trimStr g1) with
              | some r => simp [readCsvGo, hpd, hsent, hpf, hrest, Except.map]
              | none => simp [readCsvGo, hpd, hsent, hpf, hrest, Except.map]
          | none =>
            by_cases hsent : isSentinel (trimStr g1)
            · simp [readCsvGo, hpd, hsent, hrest, Except.map]
            · cases hpf : pf (trimStr g1) with
              | some r => simp [readCsvGo, hpd, hsent, hpf, hrest, Except.map]
              | none => simp [readCsvGo, hpd, hsent, hpf, hrest, Except.map]

/-- If the load loop of `main` succeeds, every one of the five files was read
successfully and produced a non-empty series. -/
theorem loadAll_ok (pd : String → Option ℤ) (pf : String → Option ℚ)
    (files : Fin 5 → List (List String)) (a : AllEuriborRates)
    (h : loadAll pd pf files = .ok a) :
    ∀ i : Fin 5, ∃ rs, read_csv pd pf (files i) = .ok rs ∧ rs ≠ [] := by
  unfold loadAll at h
  cases h0 : read_csv pd pf (files 0) with
  | error e => simp [h0] at h
  | ok r0 =>
  simp only [h0] at h
  by_cases he0 : r0 = []
  · rw [if_pos he0] at h; simp at h
  rw [if_neg he0] at h
  cases h1 : read_csv pd pf (files 1) with
  | error e => simp [h1] at h
  | ok r1 =>
  simp only [h1] at h
  by_cases he1 : r1 = []
  · rw [if_pos he1] at h; simp at h
  rw [if_neg he1] at h
  cases h2 : read_csv pd pf (files 2) with
  | error e => simp [h2] at h
  | ok r2 =>
  simp only [h2] at h
  by_cases he2 : r2 = []
  · rw [if_pos he2] at h; simp at h
  rw [if_neg he2] at h
  cases h3 : read_csv pd pf (files 3) with
  | error e => simp [h3] at h
  | ok r3 =>
  simp only [h3] at h
  by_cases he3 : r3 = []
  · rw [if_pos he3] at h; simp at h
  rw [if_neg he3] at h
  cases h4 : read_csv pd pf (files 4) with
  | error e => simp [h4] at h
  | ok r4 =>
  simp only [h4] at h
  by_cases he4 : r4 = []
  · rw [if_pos he4] at h; simp at h
  rw [if_neg he4] at h
  intro i
  fin_cases i
  · exact ⟨r0, h0, he0⟩
  · exact ⟨r1, h1, he1⟩
  · exact ⟨r2, h2, he2⟩
  · exact ⟨r3, h3, he3⟩
  · exact ⟨r4, h4, he4⟩

/-- If the modelled run completes, the load loop succeeded. -/
theorem mainRun_ok (pd : String → Option ℤ) (pf : String → Option ℚ)
    (pint : String → Option ℤ) (args : List String)
    (files : Fin 5 → List (List String)) (res : List (Fin 5 → ℚ) × ℤ)
    (h : mainRun pd pf pint args files = .ok res) :
    ∃ a, loadAll pd pf files = .ok a := by
  unfold mainRun at h
  cases hl : loadAll pd pf files with
  | error e => simp [hl] at h
  | ok a => exact ⟨a, rfl⟩

/-! ## Arithmetic of the sampling index -/

theorem sampled_le (P window : ℤ) (hP : 0 < P) (k : ℕ) (hw : 1 ≤ window)
    (hk : k < (window - 1).toNat / P.toNat + 1) : (k : ℤ) * P ≤ window - 1 := by
  have h1 : k ≤ (window - 1).toNat / P.toNat := by omega
  have h2 : k * P.toNat ≤ (window - 1).toNat := by
    calc k * P.toNat ≤ ((window - 1).toNat / P.toNat) * P.toNat :=
          Nat.mul_le_mul_right _ h1
      _ ≤ (window - 1).toNat := Nat.div_mul_le_self _ _
  have h3 : ((k * P.toNat : ℕ) : ℤ) ≤ (((window - 1).toNat : ℕ) : ℤ) := by
    exact_mod_cast h2
  rw [Nat.cast_mul, Int.toNat_of_nonneg (by omega : (0:ℤ) ≤ P),
    Int.toNat_of_nonneg (by omega : (0:ℤ) ≤ window - 1)] at h3
  exact h3

/-- Constant observations over `[d, e]` average to the constant. -/
theorem specAvgRate_const (m : ℤ → Option ℚ) (e P W : ℤ) (hP : 0 < P) (r : ℚ)
    (d : ℤ) (hd : d ≤ e) (hW : 1 ≤ W)
    (hm : ∀ x, d ≤ x → x ≤ e → m x = some r) :
    specAvgRate m e P W d = r := by
  have hw1 : 1 ≤ min W (e - d + 1) := by omega
  have hwin : min W (e - d + 1) ≤ e - d + 1 := by omega
  simp only [specAvgRate, specNumSamples, if_pos hw1]
  set n := (min W (e - d + 1) - 1).toNat / P.toNat + 1 with hn
  have hx : ∀ k ∈ Finset.range n, d ≤ d + (k : ℤ) * P ∧ d + (k : ℤ) * P ≤ e := by
    intro k hk
    have hk2 := sampled_le P (min W (e - d + 1)) hP k hw1 (Finset.mem_range.mp hk)
    constructor
    · have : (0:ℤ) ≤ (k : ℤ) * P := mul_nonneg (by positivity) (by omega)
      omega
    · omega
  have hsum : (∑ k ∈ Finset.range n,
      ((m (d + k * P)).elim 0
        (fun x => x * ((min P (e - (d + k * P) + 1) : ℤ) : ℚ))))
      = ∑ k ∈ Finset.range n, r * ((min P (e - (d + k * P) + 1) : ℤ) : ℚ) := by
    refine Finset.sum_congr rfl (fun k hk => ?_)
    rw [hm (d + k * P) (hx k hk).1 (hx k hk).2]
    rfl
  have hcnt : (∑ k ∈ Finset.range n,
      ((m (d + k * P)).elim 0 (fun _ => min P (e - (d + k * P) + 1))))
      = ∑ k ∈ Finset.range n, min P (e - (d + k * P) + 1) := by
    refine Finset.sum_congr rfl (fun k hk => ?_)
    rw [hm (d + k * P) (hx k hk).1 (hx k hk).2]
    rfl
  rw [hsum, hcnt]
  have hpos : 0 < ∑ k ∈ Finset.range n, min P (e - (d + k * P) + 1) := by
    have h1 : ∀ k ∈ Finset.range n, (1:ℤ) ≤ min P (e - (d + k * P) + 1) := by
      intro k hk
      have := (hx k hk).2
      omega
    calc (0:ℤ) < n := by positivity
      _ = ∑ _k ∈ Finset.range n, (1:ℤ) := by simp
      _ ≤ _ := Finset.sum_le_sum h1
  rw [if_pos hpos]
  rw [← Finset.mul_sum]
  have hcast : ((∑ k ∈ Finset.range n, min P (e - (d + k * P) + 1) : ℤ) : ℚ)
      = ∑ k ∈ Finset.range n, ((min P (e - (d + k * P) + 1) : ℤ) : ℚ) := by
    push_cast
    rfl
  rw [← hcast, mul_div_assoc, div_self, mul_one]
  exact_mod_cast hpos.ne'

/-- No observation on any sampled date gives the explicit zero fill. -/
theorem specAvgRate_none (m : ℤ → Option ℚ) (e P W : ℤ) (hP : 0 < P) (d : ℤ)
    (hm : ∀ k : ℕ, (k : ℤ) * P ≤ min W (e - d + 1) - 1 → m (d + k * P) = none) :
    specAvgRate m e P W d = 0 := by
  by_cases hw1 : 1 ≤ min W (e - d + 1)
  · simp only [specAvgRate, specNumSamples, if_pos hw1]
    set n := (min W (e - d + 1) - 1).toNat / P.toNat + 1 with hn
    have hz : ∀ k ∈ Finset.range n, m (d + (k : ℤ) * P) = none := by
      intro k hk
      exact hm k (sampled_le P (min W (e - d + 1)) hP k hw1 (Finset.mem_range.mp hk))
    have hcnt : (∑ k ∈ Finset.range n,
        ((m (d + k * P)).elim 0 (fun _ => min P (e - (d + k * P) + 1)))) = 0 := by
      refine Finset.sum_eq_zero (fun k hk => ?_)
      rw [hz k hk]
      rfl
    rw [hcnt]
    simp
  · simp only [specAvgRate, specNumSamples, if_neg hw1]
    simp

/-- A nonpositive window gives an empty sample set and the zero fill. -/
theorem specAvgRate_nonpos (m : ℤ → Option ℚ) (e P W : ℤ) (d : ℤ)
    (hW : W ≤ 0) : specAvgRate m e P W d = 0 := by
  have hcon : min W (e - d + 1) ≤ 0 := le_trans (min_le_left _ _) hW
  have hcon2 : ¬(1 ≤ min W (e - d + 1)) := by omega
  simp only [specAvgRate, specNumSamples]
  rw [if_neg hcon2]
  simp

/-- Inversion of a successful `calculate_average_rates`. -/
theorem calculate_some_inv (a : AllEuriborRates) (W : ℤ)
    (avgs : List (Fin 5 → ℚ)) (mark s e : ℤ)
    (hs : startDateOpt a = some s) (he : endDateOpt a = some e)
    (hc : calculate_average_rates a W = some (avgs, mark)) :
    avgs = daysLoop (fun d => fun i =>
        avgForDay (buildMap (ratesVec a i)) e W (periods i) (periods_pos i) d)
      e s ∧ mark = e - W := by
  unfold calculate_average_rates at hc
  rw [hs, he] at hc
  simp only [Option.some.injEq, Prod.mk.injEq] at hc
  exact ⟨hc.1.symm, hc.2.symm⟩

/-! ## Concrete inputs used by the witnesses -/

/-- Day number of a Gregorian calendar date (days since 0000-03-01), for
positive years; used only to express concrete calendar dates. -/
def daysFromCivil (y m d : ℕ) : ℕ :=
  let y2 := if m ≤ 2 then y - 1 else y
  let era := y2 / 400
  let yoe := y2 - era * 400
  let mp := (m + 9) % 12
  let doy := (153 * mp + 2) / 5 + d - 1
  let doe := yoe * 365 + yoe / 4 - yoe / 100 + doy
  era * 146097 + doe

/-- Concrete date parser: two known date strings. -/
def exPd : String → Option ℤ :=
  fun s => if s == "d0" then some 0 else if s == "d1" then some 1 else none

/-- Concrete rate parser: one known numeric string. -/
def exPf : String → Option ℚ := fun s => if s == "2.0" then some 2 else none

/-- Concrete integer parser: one known numeric string. -/
def exPint : String → Option ℤ := fun s => if s == "5" then some 5 else none

/-- A file: 9 metadata lines, then a numeric row and a sentinel row. -/
def exRecords : List (List String) :=
  List.replicate 9 [] ++ [["d0", "2.0"], ["d1", "."]]

/-- The five-file input in which every file is `exRecords`. -/
def exFiles : Fin 5 → List (List String) := fun _ => exRecords

/-- Five identical two-day constant series (dates 0 and 1, rate 2). -/
def exAll : AllEuriborRates :=
  { w01 := [⟨0, 2⟩, ⟨1, 2⟩], m01 := [⟨0, 2⟩, ⟨1, 2⟩], m03 := [⟨0, 2⟩, ⟨1, 2⟩],
    m06 := [⟨0, 2⟩, ⟨1, 2⟩], m12 := [⟨0, 2⟩, ⟨1, 2⟩] }

/-- The averages the program computes on `exAll` with window 5. -/
def exAvgs : List (Fin 5 → ℚ) :=
  [fun i => specAvgRate (buildMap (ratesVec exAll i)) 1 (periods i) 5 0,
   fun i => specAvgRate (buildMap (ratesVec exAll i)) 1 (periods i) 5 1]

/-- The averages the program computes on `exAll` with window `-3`. -/
def exAvgsN : List (Fin 5 → ℚ) :=
  [fun i => specAvgRate (buildMap (ratesVec exAll i)) 1 (periods i) (-3) 0,
   fun i => specAvgRate (buildMap (ratesVec exAll i)) 1 (periods i) (-3) 1]

/-- A file whose only data row has a single field holding a malformed date. -/
def badRecords : List (List String) :=
  List.replicate 9 [] ++ [["2024-13-40"]]

/-- A file whose only data row has two fields and a malformed date. -/
def badRecords2 : List (List String) :=
  List.replicate 9 [] ++ [["2024-13-40", "2.0"]]

/-- The date 2024-06-30 as a day number. -/
def exDate : ℤ := (daysFromCivil 2024 6 30 : ℕ)

/-- Five identical one-day series ending 2024-06-30. -/
def exAllB : AllEuriborRates :=
  { w01 := [⟨exDate, 1⟩], m01 := [⟨exDate, 1⟩], m03 := [⟨exDate, 1⟩],
    m06 := [⟨exDate, 1⟩], m12 := [⟨exDate, 1⟩] }

/-- The averages the program computes on `exAllB` with window 360. -/
def exAvgsB : List (Fin 5 → ℚ) :=
  [fun i => specAvgRate (buildMap (ratesVec exAllB i)) exDate (periods i) 360 exDate]

/-- Five identical gapped series (observations on days 0 and 5 only). -/
def exAllC : AllEuriborRates :=
  { w01 := [⟨0, 2⟩, ⟨5, 3⟩], m01 := [⟨0, 2⟩, ⟨5, 3⟩], m03 := [⟨0, 2⟩, ⟨5, 3⟩],
    m06 := [⟨0, 2⟩, ⟨5, 3⟩], m12 := [⟨0, 2⟩, ⟨5, 3⟩] }

/-- The averages the program computes on `exAllC` with window 2. -/
def exAvgsC : List (Fin 5 → ℚ) :=
  [fun i => specAvgRate (buildMap (ratesVec exAllC i)) 5 (periods i) 2 0,
   fun i => specAvgRate (buildMap (ratesVec exAllC i)) 5 (periods i) 2 1,
   fun i => specAvgRate (buildMap (ratesVec exAllC i)) 5 (periods i) 2 2,
   fun i => specAvgRate (buildMap (ratesVec exAllC i)) 5 (periods i) 2 3,
   fun i => specAvgRate (buildMap (ratesVec exAllC i)) 5 (periods i) 2 4,
   fun i => specAvgRate (buildMap (ratesVec exAllC i)) 5 (periods i) 2 5]

/-! ## Claims -/

/-- C1: for every non-empty `SeriesSet` and every window `W`,
`calculate_average_rates` computes, for each calendar day `d = start + n` and
each tenor `i` with period `periods i`, exactly the reference algorithm of
spec §4.2 (`specAvgRate`): shrunk window `min W ((end − d) + 1)`, sampling
dates `d + k·P` up to `d + window − 1`, weight `min P ((end − c) + 1)` per
sampled observation, and `sum/day_count` when `day_count > 0`, else `0`. -/
theorem C1_averager_matches_spec (a : AllEuriborRates) (W : ℤ)
    (avgs : List (Fin 5 → ℚ)) (mark s e : ℤ)
    (hs : startDateOpt a = some s) (he : endDateOpt a = some e)
    (hc : calculate_average_rates a W = some (avgs, mark)) :
    ∀ n : ℕ, n < avgs.length →
      avgs[n]? = some (fun i =>
        specAvgRate (buildMap (ratesVec a i)) e (periods i) W (s + n)) := by
  obtain ⟨havgs, -⟩ := calculate_some_inv a W avgs mark s e hs he hc
  subst havgs
  intro n hn
  rw [daysLoop_length] at hn
  rw [daysLoop_getElem, if_pos (by omega)]
  congr 1
  funext i
  exact avgForDay_eq_spec (buildMap (ratesVec a i)) e W (periods i)
    (periods_pos i) (s + n)

/-- Witness for C1: on `exAll` with window 5 the hypotheses hold and day 0
is exactly the spec value. -/
theorem C1_witness :
    startDateOpt exAll = some 0 ∧ endDateOpt exAll = some 1 ∧
    calculate_average_rates exAll 5 = some (exAvgs, -4) ∧ 0 < exAvgs.length ∧
    exAvgs[0]? = some (fun i =>
      specAvgRate (buildMap (ratesVec exAll i)) 1 (periods i) 5
        ((0 : ℤ) + (0 : ℕ))) :=
  ⟨rfl, rfl, by rw [calculate_eq_F]; rfl, by decide,
    C1_averager_matches_spec exAll 5 exAvgs (-4) 0 1 rfl rfl
      (by rw [calculate_eq_F]; rfl) 0 (by decide)⟩

/-- C2: every observation emitted by `read_csv` carries a rate that was
actually parsed (`pf`) from the trimmed, non-sentinel second field of some
data row, at an index `jP` no later than the index `jE` of the row whose date
the observation carries; in particular no sentinel or unparsable field ever
introduces a new rate value, and rows before the first valid rate emit
nothing. -/
theorem C2_loader_rate_provenance (pd : String → Option ℤ)
    (pf : String → Option ℚ) (records : List (List String))
    (obs : List EuriborRate) (h : read_csv pd pf records = .ok obs) :
    ∀ o ∈ obs, ∃ jP jE : ℕ, jP ≤ jE ∧
      rowParses pf (records.drop 9) jP o.rate ∧
      rowDate pd (records.drop 9) jE o.date := by
  intro o ho
  rcases readCsvGo_provenance pd pf (records.drop 9) none obs h o ho with
    hL | ⟨hcontra, -⟩
  · exact hL
  · exact absurd hcontra (by simp)

/-- Witness for C2: the sample file parses to two observations, each with a
parsed provenance. -/
theorem C2_witness :
    read_csv exPd exPf exRecords = .ok [⟨0, 2⟩, ⟨1, 2⟩] ∧
    (∀ o ∈ [(⟨0, 2⟩ : EuriborRate), ⟨1, 2⟩], ∃ jP jE : ℕ, jP ≤ jE ∧
      rowParses exPf (exRecords.drop 9) jP o.rate ∧
      rowDate exPd (exRecords.drop 9) jE o.date) :=
  ⟨rfl, C2_loader_rate_provenance exPd exPf exRecords [⟨0, 2⟩, ⟨1, 2⟩] rfl⟩

/-- C3: for a non-empty `SeriesSet` (all five series non-empty and sorted by
date, per the data model), the averaged output has length exactly
`(end − start) + 1` days. -/
theorem C3_output_length (a : AllEuriborRates) (W : ℤ)
    (avgs : List (Fin 5 → ℚ)) (mark s e : ℤ)
    (hs : startDateOpt a = some s) (he : endDateOpt a = some e)
    (hc : calculate_average_rates a W = some (avgs, mark))
    (hne : ∀ i, ratesVec a i ≠ [])
    (hsort : ∀ i, (ratesVec a i).Sorted (fun x y => x.date ≤ y.date)) :
    avgs.length = (e - s).toNat + 1 := by
  obtain ⟨havgs, -⟩ := calculate_some_inv a W avgs mark s e hs he hc
  subst havgs
  rw [daysLoop_length]
  have := start_le_end a s e hs he hne hsort
  omega

/-- Witness for C3: on `exAll` the output spans exactly 2 days. -/
theorem C3_witness :
    calculate_average_rates exAll 5 = some (exAvgs, -4) ∧
    exAvgs.length = ((1 : ℤ) - 0).toNat + 1 :=
  ⟨by rw [calculate_eq_F]; rfl,
    C3_output_length exAll 5 exAvgs (-4) 0 1 rfl rfl
      (by rw [calculate_eq_F]; rfl) (by decide) (by decide)⟩

/-- Counterexample to C4 as stated: a data row consisting of a single field
holding a malformed date string is skipped by the `record.len() < 2` check
before date parsing, so `read_csv` succeeds (with no observations) instead of
returning an error.  Here `exPd` rejects `"2024-13-40"` (as the chrono parser
would). -/
theorem C4_counterexample :
    (["2024-13-40"] ∈ badRecords.drop 9 ∧ exPd "2024-13-40" = none) ∧
    read_csv exPd exPf badRecords = .ok ([] : List EuriborRate) ∧
    read_csv exPd exPf badRecords ≠ .error () :=
  ⟨⟨by decide, rfl⟩, rfl, fun hcon =>
    Except.noConfusion ((rfl :
      read_csv exPd exPf badRecords = .ok ([] : List EuriborRate)).symm.trans
      hcon)⟩

/-- C4 (amended): a malformed date string in any input row *with at least two
fields* causes `read_csv` to return the propagated parse error, and the whole
run aborts with an error — no output value is produced. -/
theorem C4_malformed_date_aborts (pd : String → Option ℤ)
    (pf : String → Option ℚ) (pint : String → Option ℤ) (args : List String)
    (files : Fin 5 → List (List String)) (i : Fin 5) (f0 f1 : String)
    (t : List String) (hmem : (f0 :: f1 :: t) ∈ (files i).drop 9)
    (hbad : pd f0 = none) :
    read_csv pd pf (files i) = .error () ∧
    mainRun pd pf pint args files = .error () := by
  have herr : read_csv pd pf (files i) = .error () :=
    readCsvGo_error_of_bad_date pd pf _ ⟨f0, f1, t, hmem, hbad⟩ none
  refine ⟨herr, ?_⟩
  cases hm : mainRun pd pf pint args files with
  | error u => cases u; rfl
  | ok res =>
    obtain ⟨a, hl⟩ := mainRun_ok pd pf pint args files res hm
    obtain ⟨rs, hrs, -⟩ := loadAll_ok pd pf files a hl i
    rw [herr] at hrs
    exact (Except.noConfusion hrs)

/-- Witness for C4 (amended): a two-field row with a malformed date aborts
both the loader and the run. -/
theorem C4_witness :
    (["2024-13-40", "2.0"] ∈ badRecords2.drop 9 ∧ exPd "2024-13-40" = none) ∧
    read_csv exPd exPf badRecords2 = .error () ∧
    mainRun exPd exPf exPint ["prog"] (fun _ => badRecords2) = .error () :=
  ⟨⟨by decide, rfl⟩,
    C4_malformed_date_aborts exPd exPf exPint ["prog"] (fun _ => badRecords2)
      0 "2024-13-40" "2.0" [] (by decide) rfl⟩

/-- C5: the `AveragedTimeMark` returned by `calculate_average_rates` is
`end − W` days, independent of per-tenor data. -/
theorem C5_time_mark (a : AllEuriborRates) (W : ℤ)
    (avgs : List (Fin 5 → ℚ)) (mark e : ℤ) (he : endDateOpt a = some e)
    (hc : calculate_average_rates a W = some (avgs, mark)) : mark = e - W := by
  cases hs : startDateOpt a with
  | none =>
    unfold calculate_average_rates at hc
    rw [hs] at hc
    exact absurd hc (by simp)
  | some s => exact (calculate_some_inv a W avgs mark s e hs he hc).2

/-- Witness for C5: `end = 2024-06-30`, `W = 360` gives the mark 2023-07-06
(the spec's own example). -/
theorem C5_witness :
    endDateOpt exAllB = some exDate ∧
    calculate_average_rates exAllB 360 = some (exAvgsB, exDate - 360) ∧
    exDate - 360 = exDate - 360 ∧
    exDate - 360 = ((daysFromCivil 2023 7 6 : ℕ) : ℤ) :=
  ⟨rfl, by rw [calculate_eq_F]; rfl,
    C5_time_mark exAllB 360 exAvgsB (exDate - 360) exDate rfl
      (by rw [calculate_eq_F]; rfl),
    by decide⟩

/-- C6: a tenor whose series has an observation with the same rate `r` on
every calendar day of `[start, end]` averages to `r` on every day, for every
window `W ≥ 1`. -/
theorem C6_constant_series (a : AllEuriborRates) (W : ℤ) (i : Fin 5) (r : ℚ)
    (avgs : List (Fin 5 → ℚ)) (mark s e : ℤ)
    (hs : startDateOpt a = some s) (he : endDateOpt a = some e)
    (hc : calculate_average_rates a W = some (avgs, mark)) (hW : 1 ≤ W)
    (hm : ∀ d, s ≤ d → d ≤ e → buildMap (ratesVec a i) d = some r) :
    ∀ n : ℕ, n < avgs.length → ∀ v, avgs[n]? = some v → v i = r := by
  obtain ⟨havgs, -⟩ := calculate_some_inv a W avgs mark s e hs he hc
  subst havgs
  intro n hn v hv
  rw [daysLoop_length] at hn
  rw [daysLoop_getElem, if_pos (by omega)] at hv
  obtain rfl := Option.some.inj hv.symm
  show avgForDay (buildMap (ratesVec a i)) e W (periods i) (periods_pos i)
    (s + n) = r
  rw [avgForDay_eq_spec]
  exact specAvgRate_const (buildMap (ratesVec a i)) e (periods i) W
    (periods_pos i) r (s + n) (by omega) hW
    (fun x h1 h2 => hm x (by omega) h2)

/-- Witness for C6: the constant series `exAll` (rate 2 on days 0 and 1)
averages to 2 on day 0 for tenor 0 with window 5. -/
theorem C6_witness :
    calculate_average_rates exAll 5 = some (exAvgs, -4) ∧
    exAvgs[0]? = some (fun i =>
      specAvgRate (buildMap (ratesVec exAll i)) 1 (periods i) 5 0) ∧
    (fun i => specAvgRate (buildMap (ratesVec exAll i)) 1 (periods i) 5 0) 0
      = 2 :=
  ⟨by rw [calculate_eq_F]; rfl, rfl,
    C6_constant_series exAll 5 0 2 exAvgs (-4) 0 1 rfl rfl
      (by rw [calculate_eq_F]; rfl) (by decide)
      (fun d h1 h2 => by interval_cases d <;> rfl) 0 (by decide) _ rfl⟩

/-- C7: a day `d` and tenor `i` with no observation on any sampled date in
the (possibly shrunk) window starting at `d` get the explicit zero fill
`0.0`, not a missing-data sentinel. -/
theorem C7_zero_fill (a : AllEuriborRates) (W : ℤ) (i : Fin 5)
    (avgs : List (Fin 5 → ℚ)) (mark s e d : ℤ)
    (hs : startDateOpt a = some s) (he : endDateOpt a = some e)
    (hc : calculate_average_rates a W = some (avgs, mark))
    (hd1 : s ≤ d) (hd2 : d ≤ e)
    (hno : ∀ k : ℕ, (k : ℤ) * periods i ≤ min W (e - d + 1) - 1 →
      buildMap (ratesVec a i) (d + k * periods i) = none) :
    ∀ v, avgs[(d - s).toNat]? = some v → v i = 0 := by
  obtain ⟨havgs, -⟩ := calculate_some_inv a W avgs mark s e hs he hc
  subst havgs
  intro v hv
  rw [daysLoop_getElem, if_pos (by omega)] at hv
  obtain rfl := Option.some.inj hv.symm
  show avgForDay (buildMap (ratesVec a i)) e W (periods i) (periods_pos i)
    (s + ((d - s).toNat : ℕ)) = 0
  have harg : s + (((d - s).toNat : ℕ) : ℤ) = d := by omega
  rw [harg, avgForDay_eq_spec]
  exact specAvgRate_none (buildMap (ratesVec a i)) e (periods i) W
    (periods_pos i) d hno

/-- Witness for C7: on the gapped series `exAllC` with window 2, day 1 has no
sampled observation for tenor 0 and its value is exactly 0. -/
theorem C7_witness :
    calculate_average_rates exAllC 2 = some (exAvgsC, 3) ∧
    exAvgsC[((1 : ℤ) - 0).toNat]? = some (fun i =>
      specAvgRate (buildMap (ratesVec exAllC i)) 5 (periods i) 2 1) ∧
    (fun i => specAvgRate (buildMap (ratesVec exAllC i)) 5 (periods i) 2 1) 0
      = 0 :=
  ⟨by rw [calculate_eq_F]; rfl, rfl,
    C7_zero_fill exAllC 2 0 exAvgsC 3 0 5 1 rfl rfl
      (by rw [calculate_eq_F]; rfl) (by decide) (by decide)
      (fun k hk => by
        rw [show periods (0 : Fin 5) = 7 from rfl] at hk
        have hk0 : k = 0 := by omega
        subst hk0
        decide)
      _ rfl⟩

/-- C8: if `read_csv` yields zero observations for any of the five files, the
run aborts with an error and produces no output; averaging proceeds only when
all five series are non-empty. -/
theorem C8_empty_series_fatal (pd : String → Option ℤ)
    (pf : String → Option ℚ) (pint : String → Option ℤ) (args : List String)
    (files : Fin 5 → List (List String)) (i : Fin 5)
    (h : read_csv pd pf (files i) = .ok ([] : List EuriborRate)) :
    mainRun pd pf pint args files = .error () := by
  cases hm : mainRun pd pf pint args files with
  | error u => cases u; rfl
  | ok res =>
    obtain ⟨a, hl⟩ := mainRun_ok pd pf pint args files res hm
    obtain ⟨rs, hrs, hne⟩ := loadAll_ok pd pf files a hl i
    rw [h] at hrs
    exact absurd (Except.ok.inj hrs).symm hne

/-- Witness for C8: an input file with no records yields zero observations
and the run aborts. -/
theorem C8_witness :
    read_csv exPd exPf ([] : List (List String)) = .ok ([] : List EuriborRate)
    ∧ mainRun exPd exPf exPint ["prog"] (fun _ => []) = .error () :=
  ⟨rfl, C8_empty_series_fatal exPd exPf exPint ["prog"] (fun _ => []) 0 rfl⟩

/-- C9: the averaging window equals the parsed command-line argument when
present and parsable, and 360 when the argument is absent or unparsable; an
unparsable argument never aborts the run (the run proceeds exactly as with no
argument). -/
theorem C9_window_argument (pint : String → Option ℤ) (args : List String) :
    (args.length ≤ 1 → effectiveWindow pint args = 360) ∧
    (∀ s, args[1]? = some s → pint s = none →
      effectiveWindow pint args = 360 ∧
      ∀ pd pf files, mainRun pd pf pint args files
        = mainRun pd pf pint [] files) ∧
    (∀ s n, args[1]? = some s → pint s = some n →
      effectiveWindow pint args = n) := by
  have hgetlen : ∀ s : String, args[1]? = some s → 1 < args.length := by
    intro s hs
    by_contra hcon
    rw [List.getElem?_eq_none (by omega)] at hs
    exact Option.noConfusion hs
  have hgetval : ∀ (s : String) (h : 1 < args.length), args[1]? = some s →
      args.get ⟨1, h⟩ = s := by
    intro s h hs
    rw [List.getElem?_eq_getElem h] at hs
    exact Option.some.inj hs
  refine ⟨?_, ?_, ?_⟩
  · intro hlen
    unfold effectiveWindow
    rw [dif_neg (by omega)]
  · intro s hs hnone
    have hlen := hgetlen s hs
    have heq : effectiveWindow pint args = 360 := by
      unfold effectiveWindow
      rw [dif_pos hlen, hgetval s hlen hs, hnone]
      rfl
    refine ⟨heq, fun pd pf files => ?_⟩
    have heq2 : effectiveWindow pint [] = 360 := rfl
    simp only [mainRun]
    rw [heq, heq2]
  · intro s n hs hpint
    have hlen := hgetlen s hs
    unfold effectiveWindow
    rw [dif_pos hlen, hgetval s hlen hs, hpint]
    rfl

/-- Witness for C9 at concrete arguments: an unparsable argument gives 360
and the same run as no argument; a parsable one gives its value; no argument
gives 360. -/
theorem C9_witness :
    effectiveWindow exPint ["prog", "bad"] = 360 ∧
    effectiveWindow exPint ["prog", "5"] = 5 ∧
    effectiveWindow exPint ["prog"] = 360 ∧
    mainRun exPd exPf exPint ["prog", "bad"] exFiles
      = mainRun exPd exPf exPint [] exFiles :=
  ⟨((C9_window_argument exPint ["prog", "bad"]).2.1 "bad" rfl rfl).1,
   (C9_window_argument exPint ["prog", "5"]).2.2 "5" 5 rfl rfl,
   (C9_window_argument exPint ["prog"]).1 (by decide),
   ((C9_window_argument exPint ["prog", "bad"]).2.1 "bad" rfl rfl).2
     exPd exPf exFiles⟩

/-- C10: with a window `W ≤ 0` every averaged value is `0.0` (the sampling
loop never runs), and the time mark is `end + |W|`, strictly after `end` when
`W < 0`. -/
theorem C10_nonpositive_window (a : AllEuriborRates) (W : ℤ)
    (avgs : List (Fin 5 → ℚ)) (mark s e : ℤ)
    (hs : startDateOpt a = some s) (he : endDateOpt a = some e)
    (hc : calculate_average_rates a W = some (avgs, mark)) (hW : W ≤ 0) :
    (∀ v ∈ avgs, ∀ i, v i = 0) ∧ mark = e + (-W) ∧ (W < 0 → e < mark) := by
  obtain ⟨havgs, hmark⟩ := calculate_some_inv a W avgs mark s e hs he hc
  subst havgs
  refine ⟨?_, by omega, by omega⟩
  intro v hv i
  obtain ⟨t2, h1, h2, hveq⟩ := daysLoop_mem _ _ _ v hv
  subst hveq
  show avgForDay (buildMap (ratesVec a i)) e W (periods i) (periods_pos i) t2
    = 0
  rw [avgForDay_eq_spec]
  exact specAvgRate_nonpos (buildMap (ratesVec a i)) e (periods i) W t2 hW

/-- Witness for C10: `exAll` with window `-3` gives all zeros and mark
`1 + 3 = 4 > end`. -/
theorem C10_witness :
    calculate_average_rates exAll (-3) = some (exAvgsN, 4) ∧
    (fun i => specAvgRate (buildMap (ratesVec exAll i)) 1 (periods i) (-3) 0)
      ∈ exAvgsN ∧
    (fun i => specAvgRate (buildMap (ratesVec exAll i)) 1 (periods i) (-3) 0) 0
      = 0 ∧
    (4 : ℤ) = 1 + -(-3) ∧ (1 : ℤ) < 4 := by
  have hc : calculate_average_rates exAll (-3) = some (exAvgsN, 4) := by
    rw [calculate_eq_F]; rfl
  have happ := C10_nonpositive_window exAll (-3) exAvgsN 4 0 1 rfl rfl hc
    (by decide)
  have hmem : (fun i =>
      specAvgRate (buildMap (ratesVec exAll i)) 1 (periods i) (-3) 0)
      ∈ exAvgsN := List.mem_cons_self _ _
  exact ⟨hc, hmem, happ.1 _ hmem 0, happ.2.1, happ.2.2 (by decide)⟩
